import Mathlib

/-!
# Work-log synchronisation (`server/store/worksync.go`)

A shallow embedding of `updateWorkExcel`: the routine that files a short text
message into a four-column day-indexed worksheet (Task, Todo, Note, Date).

Modelling conventions:

* Go strings are modelled by Lean `String`s (sequences of Unicode code
  points, i.e. valid UTF-8 text).  All string operations are defined through
  the underlying list of characters.
* Go `int` values are modelled by `Int`; no quantity in this code comes close
  to the machine-word bounds.
* The worksheet is the list of its rows, each row the list of its cells;
  list index `i` is worksheet row `i + 1`.  Rows may be ragged, a cell that is
  not stored reads as the empty string.
* I/O failures (directory creation, open, save) are outside the model: the
  routine is the function from the sheet found on disk to the sheet saved.
-/

namespace WorkSync

/-! ## Go standard library: `strings`, `unicode`, `fmt` -/

/-- Go `unicode.IsSpace`: the Latin-1 white space characters and the code
points with the Unicode White_Space property above Latin-1. -/
def isSpace (c : Char) : Bool :=
  let n := c.toNat
  n = 0x09 || n = 0x0A || n = 0x0B || n = 0x0C || n = 0x0D || n = 0x20 ||
  n = 0x85 || n = 0xA0 || n = 0x1680 || (0x2000 ≤ n && n ≤ 0x200A) ||
  n = 0x2028 || n = 0x2029 || n = 0x202F || n = 0x205F || n = 0x3000

/-- Go `strings.HasPrefix(s, prefix)`. -/
def hasPrefix (s pre : String) : Bool :=
  pre.data.isPrefixOf s.data

/-- Go `strings.TrimSpace`, on lists of characters: white space is removed
from the front and from the back. -/
def trimSpaceList (l : List Char) : List Char :=
  ((l.dropWhile isSpace).reverse.dropWhile isSpace).reverse

/-- Go `strings.TrimSpace(s)`. -/
def trimSpace (s : String) : String :=
  ⟨trimSpaceList s.data⟩

/-- Go slice expression `s[n:]` for an `n` that falls after `n` one-byte
characters (the only use is `content[3:]` behind a 3-byte ASCII prefix). -/
def sliceFrom (s : String) (n : Nat) : String :=
  ⟨s.data.drop n⟩

/-- Go `fmt` integer verb `%d` with the zero flag and a width (`%0wd`);
`width = 0` is the plain `%d`.  The digits are padded with zeros up to the
width, one position of which is taken by the sign of a negative number. -/
def fmtInt (width : Nat) (n : Int) : String :=
  let digits := Nat.repr n.natAbs
  let prec := if n < 0 then width - 1 else width
  let padded := String.mk (List.replicate (prec - digits.length) '0') ++ digits
  if n < 0 then "-" ++ padded else padded

/-- The part of a Go `time.Time` this code reads. -/
structure Time where
  Day : Int
  Month : Int
  Year : Int
deriving DecidableEq, Repr

/-! ## The worksheet (excelize) -/

/-- A worksheet row: its cells from column A on. -/
abbrev Row := List String

/-- A worksheet: its rows, the header first. -/
abbrev Sheet := List Row

/-- A worksheet column letter. -/
inductive Column where
  | A | B | C | D
deriving DecidableEq, Repr

/-- Zero-based index of a column. -/
def Column.index : Column → Nat
  | .A => 0
  | .B => 1
  | .C => 2
  | .D => 3

/-- Column of the task text (任务). -/
def colTask : Column := .A
/-- Column of the todo text. -/
def colTodo : Column := .B
/-- Column of the free description (说明). -/
def colDescription : Column := .C
/-- Column of the date (日期). -/
def colDate : Column := .D

/-- Extend a list with copies of `d` up to length `n`. -/
def padTo {α : Type} (n : Nat) (d : α) (l : List α) : List α :=
  l ++ List.replicate (n - l.length) d

/-- Modelled from the spec: the store operation `Rows()` (excelize `GetRows`,
a library outside the repository): the full ordered sequence of rows, header
included. -/
def getRows (f : Sheet) : List Row := f

/-- Modelled from the spec: the store operation `Cell(row, col)` (excelize
`GetCellValue`): the stored string, or the empty string when the cell was
never set.  `row` is the 1-based worksheet row; row 0 is no cell, which the
caller treats as empty. -/
def getCellValue (f : Sheet) (col : Column) (row : Nat) : String :=
  if row = 0 then "" else (f.getD (row - 1) []).getD col.index ""

/-- Modelled from the spec: the store operation `SetCell(row, col, value)`
(excelize `SetCellValue`): overwrite one cell, creating the row and the cells
before it when they are not stored yet.  `row` is the 1-based worksheet
row. -/
def setCellValue (f : Sheet) (col : Column) (row : Nat) (value : String) : Sheet :=
  if row = 0 then f
  else
    let g := padTo row [] f
    g.set (row - 1) ((padTo (col.index + 1) "" (g.getD (row - 1) [])).set col.index value)

/-- Modelled from the spec: the store operation `InsertRow(at)` (excelize
`InsertRows(sheet, row, n)`): the rows at or after the 1-based `row` move
down by `n` and `n` empty rows take their place; there is nothing to move
when `row` lies beyond the stored rows. -/
def insertRows (f : Sheet) (row n : Nat) : Sheet :=
  if row = 0 ∨ f.length < row - 1 then f
  else f.take (row - 1) ++ List.replicate n [] ++ f.drop (row - 1)

/-! ## `updateWorkExcel` -/

/-- Lines 101-109: a new file whose sheet holds the four header labels. -/
def newWorkFile : Sheet :=
  let f : Sheet := []
  let f := setCellValue f colTask 1 "任务"
  let f := setCellValue f colTodo 1 "Todo"
  let f := setCellValue f colDescription 1 "说明"
  setCellValue f colDate 1 "日期"

/-- Lines 99-129: a file that does not exist (`none`) is created with the
header; a file that exists is opened and is given by the rows of its work
sheet.  An existing file that lacks the work sheet (lines 115-128) is not
covered. -/
def openWorkFile (disk : Option Sheet) : Sheet :=
  match disk with
  | none => newWorkFile
  | some f => f

/-- Line 134: `fmt.Sprintf("%d/%02d/%d", now.Day(), int(now.Month()), now.Year())`. -/
def currentDate (now : Time) : String :=
  fmtInt 0 now.Day ++ "/" ++ fmtInt 2 now.Month ++ "/" ++ fmtInt 0 now.Year

/-- Line 150: the test `len(row) > 3 && row[3] == currentDate`. -/
def isTodayRow (currentDate : String) (row : Row) : Bool :=
  decide (row.length > 3) && row.getD 3 "" == currentDate

/-- Lines 145-154: the loop over `rows` from index `i` on; the result is
`todayRowIndex`, `-1` when the loop ends without a match. -/
def findTodayRowFrom (currentDate : String) : Nat → List Row → Int
  | _, [] => -1
  | i, row :: rest =>
    if i = 0 then findTodayRowFrom currentDate (i + 1) rest
    else if isTodayRow currentDate row then (i : Int) + 1
    else findTodayRowFrom currentDate (i + 1) rest

/-- Lines 145-154: `todayRowIndex` after the loop over all rows. -/
def findTodayRow (currentDate : String) (rows : List Row) : Int :=
  findTodayRowFrom currentDate 0 rows

/-- Lines 156-169: the target column and the cleaned content. -/
def routeContent (content : String) : Column × String :=
  if hasPrefix content "Ta:" then (colTask, trimSpace (sliceFrom content 3))
  else if hasPrefix content "To:" then (colTodo, trimSpace (sliceFrom content 3))
  else (colDescription, content)

/-- Lines 171-198: insert a row for today or extend today's row. -/
def writeContent (f : Sheet) (todayRowIndex : Int) (currentDate : String)
    (targetCol : Column) (cleanContent : String) : Sheet :=
  if todayRowIndex = -1 then
    let insertRowIndex := 2
    let f := insertRows f insertRowIndex 1
    let f := setCellValue f colDate insertRowIndex currentDate
    setCellValue f targetCol insertRowIndex cleanContent
  else
    let existingContent := getCellValue f targetCol todayRowIndex.toNat
    let newContent :=
      if existingContent ≠ "" then existingContent ++ "\n" ++ cleanContent
      else cleanContent
    setCellValue f targetCol todayRowIndex.toNat newContent

/-- The routine `updateWorkExcel(content)`: `now` is the clock reading, `disk`
the sheet stored at the work path (`none` when there is none); the result is
the sheet that is saved. -/
def updateWorkExcel (content : String) (now : Time) (disk : Option Sheet) : Sheet :=
  let f := openWorkFile disk
  let currentDate := currentDate now
  let rows := getRows f
  let todayRowIndex := findTodayRow currentDate rows
  let (targetCol, cleanContent) := routeContent content
  writeContent f todayRowIndex currentDate targetCol cleanContent

/-! ## Strings: prefixes and trimming -/

theorem hasPrefix_append (pre rest : String) : hasPrefix (pre ++ rest) pre = true := by
  unfold hasPrefix
  rw [String.data_append, List.isPrefixOf_iff_prefix]
  exact List.prefix_append _ _

theorem hasPrefix_iff (s pre : String) :
    hasPrefix s pre = true ↔ ∃ rest : String, s = pre ++ rest := by
  constructor
  · intro h
    obtain ⟨t, ht⟩ := List.isPrefixOf_iff_prefix.mp h
    exact ⟨⟨t⟩, String.ext (by simp [String.data_append, ht])⟩
  · rintro ⟨rest, rfl⟩
    exact hasPrefix_append pre rest

theorem sliceFrom_append (pre rest : String) :
    sliceFrom (pre ++ rest) pre.length = rest := by
  apply String.ext
  show (pre ++ rest).data.drop pre.length = rest.data
  rw [String.data_append]
  exact List.drop_left' (by cases pre; rfl)

theorem dropWhile_split (p : Char → Bool) (l : List Char) :
    ∃ ws : List Char, l = ws ++ l.dropWhile p ∧ ∀ c ∈ ws, p c = true := by
  refine ⟨l.takeWhile p, (List.takeWhile_append_dropWhile p l).symm, ?_⟩
  intro c hc
  exact List.mem_takeWhile_imp hc

theorem dropWhile_head (p : Char → Bool) (l : List Char) (c : Char)
    (h : (l.dropWhile p).head? = some c) : p c = false := by
  induction l with
  | nil => simp at h
  | cons a t ih =>
    by_cases ha : p a = true
    · rw [List.dropWhile_cons_of_pos ha] at h
      exact ih h
    · rw [List.dropWhile_cons_of_neg ha] at h
      simp only [List.head?_cons, Option.some.injEq] at h
      subst h
      simpa using ha

/-- Trimming splits the text into white space, the result, white space. -/
theorem trimSpaceList_split (l : List Char) :
    ∃ ws₁ ws₂ : List Char, l = ws₁ ++ trimSpaceList l ++ ws₂ ∧
      (∀ c ∈ ws₁, isSpace c = true) ∧ (∀ c ∈ ws₂, isSpace c = true) := by
  obtain ⟨ws₁, h₁, hw₁⟩ := dropWhile_split isSpace l
  obtain ⟨ws₂, h₂, hw₂⟩ := dropWhile_split isSpace (l.dropWhile isSpace).reverse
  refine ⟨ws₁, ws₂.reverse, ?_, hw₁, ?_⟩
  · have h₃ : l.dropWhile isSpace = trimSpaceList l ++ ws₂.reverse := by
      have := congrArg List.reverse h₂
      simpa [trimSpaceList] using this
    rw [List.append_assoc, ← h₃]
    exact h₁
  · intro c hc
    exact hw₂ c (List.mem_reverse.mp hc)

/-- The trimmed text does not end in white space. -/
theorem trimSpaceList_getLast (l : List Char) (c : Char)
    (h : (trimSpaceList l).getLast? = some c) : isSpace c = false := by
  apply dropWhile_head isSpace (l.dropWhile isSpace).reverse c
  simpa [trimSpaceList, List.getLast?_reverse] using h

/-- The trimmed text does not start with white space. -/
theorem trimSpaceList_head (l : List Char) (c : Char)
    (h : (trimSpaceList l).head? = some c) : isSpace c = false := by
  obtain ⟨ws₂, h₂, -⟩ := dropWhile_split isSpace (l.dropWhile isSpace).reverse
  have h₃ : l.dropWhile isSpace = trimSpaceList l ++ ws₂.reverse := by
    have := congrArg List.reverse h₂
    simpa [trimSpaceList] using this
  apply dropWhile_head isSpace l c
  rw [h₃]
  cases ht : trimSpaceList l with
  | nil => simp [ht] at h
  | cons a t =>
    rw [ht] at h
    simpa using h

/-! ## Routing by prefix -/

theorem routeContent_task (rest : String) :
    routeContent ("Ta:" ++ rest) = (Column.A, trimSpace rest) := by
  have hTa : sliceFrom ("Ta:" ++ rest) 3 = rest := sliceFrom_append "Ta:" rest
  simp [routeContent, hasPrefix_append, hTa, colTask]

theorem routeContent_todo (rest : String) :
    routeContent ("To:" ++ rest) = (Column.B, trimSpace rest) := by
  have hTo : sliceFrom ("To:" ++ rest) 3 = rest := sliceFrom_append "To:" rest
  have hno : hasPrefix ("To:" ++ rest) "Ta:" = false := by
    simp [hasPrefix, String.data_append, List.isPrefixOf]
  simp [routeContent, hasPrefix_append, hno, hTo, colTodo]

theorem trimSpace_space_append (s : String) : trimSpace (" " ++ s) = trimSpace s := by
  have h : (" " ++ s).data = ' ' :: s.data := by
    rw [String.data_append]
    rfl
  have hsp : isSpace ' ' = true := by decide
  simp only [trimSpace, trimSpaceList, h, List.dropWhile_cons_of_pos hsp]

/-- C1: content that starts with "Ta:" is routed to the Task column (A) and
content that starts with "To:" to the Todo column (B); in both cases the
cleaned content is the text after the first three characters with leading and
trailing white space removed: that text is white space, the cleaned content,
white space, and the cleaned content neither starts nor ends with white
space. -/
theorem routeContent_task_todo (rest : String) :
    hasPrefix ("Ta:" ++ rest) "Ta:" = true ∧
    hasPrefix ("To:" ++ rest) "To:" = true ∧
    sliceFrom ("Ta:" ++ rest) 3 = rest ∧
    sliceFrom ("To:" ++ rest) 3 = rest ∧
    routeContent ("Ta:" ++ rest) = (Column.A, trimSpace rest) ∧
    routeContent ("To:" ++ rest) = (Column.B, trimSpace rest) ∧
    (∃ ws₁ ws₂ : List Char, rest.data = ws₁ ++ (trimSpace rest).data ++ ws₂ ∧
      (∀ c ∈ ws₁, isSpace c = true) ∧ (∀ c ∈ ws₂, isSpace c = true)) ∧
    (∀ c, (trimSpace rest).data.head? = some c → isSpace c = false) ∧
    (∀ c, (trimSpace rest).data.getLast? = some c → isSpace c = false) := by
  exact ⟨hasPrefix_append _ _, hasPrefix_append _ _, sliceFrom_append "Ta:" rest,
    sliceFrom_append "To:" rest, routeContent_task rest,
    routeContent_todo rest, trimSpaceList_split rest.data, trimSpaceList_head rest.data,
    trimSpaceList_getLast rest.data⟩

/-- C2: prefix matching is exact and case-sensitive: content that starts
neither with "Ta:" nor with "To:" is routed to the Note column (C) and the
cleaned content is the content itself, untrimmed. -/
theorem routeContent_other (content : String)
    (hTa : hasPrefix content "Ta:" = false) (hTo : hasPrefix content "To:" = false) :
    routeContent content = (Column.C, content) := by
  simp [routeContent, hTa, hTo, colDescription]

theorem routeContent_other_witness :
    (hasPrefix "ta: x" "Ta:" = false ∧ hasPrefix "ta: x" "To:" = false ∧
      routeContent "ta: x" = (Column.C, "ta: x")) ∧
    (hasPrefix "Ta :x" "Ta:" = false ∧ hasPrefix "Ta :x" "To:" = false ∧
      routeContent "Ta :x" = (Column.C, "Ta :x")) ∧
    (hasPrefix "  TA: x  " "Ta:" = false ∧ hasPrefix "  TA: x  " "To:" = false ∧
      routeContent "  TA: x  " = (Column.C, "  TA: x  ")) :=
  ⟨⟨by decide, by decide, routeContent_other "ta: x" (by decide) (by decide)⟩,
   ⟨by decide, by decide, routeContent_other "Ta :x" (by decide) (by decide)⟩,
   ⟨by decide, by decide, routeContent_other "  TA: x  " (by decide) (by decide)⟩⟩

/-! ## The search for today's row -/

theorem findTodayRowFrom_cases (d : String) (rows : List Row) (k : Nat) (hk : 1 ≤ k) :
    (findTodayRowFrom d k rows = -1 ∧
      ∀ j, j < rows.length → isTodayRow d (rows.getD j []) = false) ∨
    (∃ i, i < rows.length ∧ findTodayRowFrom d k rows = ((k + i : Nat) : Int) + 1 ∧
      isTodayRow d (rows.getD i []) = true ∧
      ∀ j, j < i → isTodayRow d (rows.getD j []) = false) := by
  induction rows generalizing k with
  | nil => left; simp [findTodayRowFrom]
  | cons row rest ih =>
    have hk0 : k ≠ 0 := by omega
    by_cases hrow : isTodayRow d row = true
    · right
      refine ⟨0, by simp, ?_, by simpa using hrow, by simp⟩
      simp [findTodayRowFrom, hk0, hrow]
    · have hrow' : isTodayRow d row = false := by simpa using hrow
      have hstep : findTodayRowFrom d k (row :: rest) = findTodayRowFrom d (k + 1) rest := by
        simp [findTodayRowFrom, hk0, hrow']
      rcases ih (k + 1) (by omega) with ⟨h1, h2⟩ | ⟨i, hi, h1, h2, h3⟩
      · left
        refine ⟨by rw [hstep, h1], ?_⟩
        intro j hj
        cases j with
        | zero => simpa using hrow'
        | succ j => simpa using h2 j (by simpa using hj)
      · right
        refine ⟨i + 1, by simpa using hi, ?_, by simpa using h2, ?_⟩
        · rw [hstep, h1]
          push_cast
          ring
        · intro j hj
          cases j with
          | zero => simpa using hrow'
          | succ j => simpa using h3 j (by omega)

/-- The result of the search: `-1` and no data row is today's, or the
worksheet row number of the first data row that is today's. -/
theorem findTodayRow_cases (d : String) (rows : List Row) :
    (findTodayRow d rows = -1 ∧
      ∀ j, 1 ≤ j → j < rows.length → isTodayRow d (rows.getD j []) = false) ∨
    (∃ i, 1 ≤ i ∧ i < rows.length ∧ findTodayRow d rows = (i : Int) + 1 ∧
      isTodayRow d (rows.getD i []) = true ∧
      ∀ j, 1 ≤ j → j < i → isTodayRow d (rows.getD j []) = false) := by
  cases rows with
  | nil => left; simp [findTodayRow, findTodayRowFrom]
  | cons hdr rest =>
    have hstep : findTodayRow d (hdr :: rest) = findTodayRowFrom d 1 rest := by
      simp [findTodayRow, findTodayRowFrom]
    rcases findTodayRowFrom_cases d rest 1 (le_refl 1) with ⟨h1, h2⟩ | ⟨i, hi, h1, h2, h3⟩
    · left
      refine ⟨by rw [hstep, h1], ?_⟩
      intro j hj1 hj
      obtain ⟨j, rfl⟩ : ∃ j', j = j' + 1 := ⟨j - 1, by omega⟩
      simpa using h2 j (by simpa using hj)
    · right
      refine ⟨i + 1, by omega, by simpa using hi, ?_, by simpa using h2, ?_⟩
      · rw [hstep, h1]
        push_cast
        ring
      · intro j hj1 hj
        obtain ⟨j, rfl⟩ : ∃ j', j = j' + 1 := ⟨j - 1, by omega⟩
        simpa using h3 j (by omega)

/-- C5: the row search skips the header and takes the first data row, in
stored order, whose Date cell is today's string: the result is `-1` exactly
when no data row is today's, it is the worksheet row `i + 1` exactly when row
index `i ≥ 1` is today's and no data row before it is, and it is never the
header (worksheet row 1), whatever the header holds. -/
theorem findTodayRow_first_match (d : String) (rows : List Row) :
    (findTodayRow d rows = -1 ↔
      ∀ j, 1 ≤ j → j < rows.length → isTodayRow d (rows.getD j []) = false) ∧
    (∀ i : Nat, findTodayRow d rows = (i : Int) + 1 ↔
      (1 ≤ i ∧ i < rows.length ∧ isTodayRow d (rows.getD i []) = true ∧
        ∀ j, 1 ≤ j → j < i → isTodayRow d (rows.getD j []) = false)) ∧
    findTodayRow d rows ≠ 1 ∧
    findTodayRow d [[d, d, d, d], ["x", "", "", d], ["y", "", "", d]] = 2 := by
  have hlast : findTodayRow d [[d, d, d, d], ["x", "", "", d], ["y", "", "", d]] = 2 := by
    simp [findTodayRow, findTodayRowFrom, isTodayRow]
  rcases findTodayRow_cases d rows with ⟨h1, h2⟩ | ⟨i, hi1, hi, h1, h2, h3⟩
  · refine ⟨⟨fun _ => h2, fun _ => h1⟩, ?_, by rw [h1]; decide, hlast⟩
    intro i
    constructor
    · intro h
      rw [h1] at h
      omega
    · rintro ⟨hi1, hi, hm, -⟩
      rw [h2 i hi1 hi] at hm
      exact absurd hm (by decide)
  · refine ⟨⟨?_, ?_⟩, ?_, by rw [h1]; omega, hlast⟩
    · intro h
      rw [h1] at h
      omega
    · intro h
      rw [h i hi1 hi] at h2
      exact absurd h2 (by decide)
    · intro i'
      constructor
      · intro h
        rw [h1] at h
        have : i' = i := by omega
        subst this
        exact ⟨hi1, hi, h2, h3⟩
      · rintro ⟨hi1', hi', hm', hb'⟩
        rcases Nat.lt_trichotomy i i' with hlt | heq | hgt
        · rw [hb' i hi1 hlt] at h2
          exact absurd h2 (by decide)
        · rw [h1, heq]
        · rw [h3 i' hi1' hgt] at hm'
          exact absurd hm' (by decide)

/-! ## The date string -/

theorem fmtInt_zero (n : Int) : fmtInt 0 n = toString n := by
  cases n with
  | ofNat m =>
    have h : ¬ (Int.ofNat m < 0) := by simp
    simp only [fmtInt, h, if_false, Nat.zero_sub, List.replicate_zero]
    show String.mk [] ++ Nat.repr m = Nat.repr m
    exact String.empty_append _
  | negSucc m =>
    have h : Int.negSucc m < 0 := Int.negSucc_lt_zero m
    simp only [fmtInt, h, if_true, Nat.zero_sub, List.replicate_zero]
    show "-" ++ (String.mk [] ++ Nat.repr (m + 1)) = "-" ++ Nat.repr (m + 1)
    rw [show String.mk [] = "" from rfl, String.empty_append]

theorem fmtInt_two_month (m : Int) (h1 : 1 ≤ m) (h2 : m ≤ 12) :
    fmtInt 2 m = (if m < 10 then "0" ++ toString m else toString m) ∧
    (fmtInt 2 m).length = 2 := by
  interval_cases m <;> exact ⟨by decide, by decide⟩

theorem toString_day_length (d : Int) (h1 : 1 ≤ d) (h2 : d ≤ 31) :
    (toString d).length = (if d < 10 then 1 else 2) := by
  interval_cases d <;> decide

/-- C6: for a valid calendar date (day 1..31, month 1..12, any year) the date
string is the day in plain decimal (one character below 10, two from 10 on),
"/", the month in exactly two digits (a leading zero below 10), "/", the year
in plain decimal; day 5, month 7, year 2024 gives "5/07/2024". -/
theorem currentDate_format (now : Time)
    (hd : 1 ≤ now.Day ∧ now.Day ≤ 31) (hm : 1 ≤ now.Month ∧ now.Month ≤ 12) :
    currentDate now =
      toString now.Day ++ "/" ++
      (if now.Month < 10 then "0" ++ toString now.Month else toString now.Month) ++ "/" ++
      toString now.Year ∧
    (toString now.Day).length = (if now.Day < 10 then 1 else 2) ∧
    (fmtInt 2 now.Month).length = 2 ∧
    currentDate ⟨5, 7, 2024⟩ = "5/07/2024" := by
  refine ⟨?_, toString_day_length _ hd.1 hd.2, (fmtInt_two_month _ hm.1 hm.2).2, by decide⟩
  unfold currentDate
  rw [fmtInt_zero, fmtInt_zero, (fmtInt_two_month _ hm.1 hm.2).1]

theorem currentDate_format_witness :
    ((1 : Int) ≤ 5 ∧ (5 : Int) ≤ 31) ∧ ((1 : Int) ≤ 7 ∧ (7 : Int) ≤ 12) ∧
    currentDate ⟨5, 7, 2024⟩ = "5" ++ "/" ++ "07" ++ "/" ++ "2024" :=
  ⟨by decide, by decide,
    (currentDate_format ⟨5, 7, 2024⟩ (by decide) (by decide)).1.trans (by decide)⟩

/-- C7: the comment on the date line promises the format DD/MM/YYYY (as in
29/07/2025, ten characters); on 5 July 2024 the code produces "5/07/2024",
nine characters, the day not padded. -/
theorem currentDate_day_not_padded :
    currentDate ⟨5, 7, 2024⟩ = "5/07/2024" ∧
    (currentDate ⟨5, 7, 2024⟩).length = 9 ∧
    (currentDate ⟨5, 7, 2024⟩).length ≠ 10 ∧
    currentDate ⟨29, 7, 2025⟩ = "29/07/2025" := by
  decide

/-! ## Writing into the worksheet -/

theorem padTo_of_le {α : Type} (n : Nat) (d : α) (l : List α) (h : n ≤ l.length) :
    padTo n d l = l := by
  simp [padTo, Nat.sub_eq_zero_of_le h]

/-- Writing a cell that is already stored replaces just that cell. -/
theorem setCellValue_stored (f : Sheet) (col : Column) (r : Nat) (v : String)
    (hr : r < f.length) (hc : col.index < (f.getD r []).length) :
    setCellValue f col (r + 1) v = f.set r ((f.getD r []).set col.index v) := by
  have h1 : padTo (r + 1) ([] : Row) f = f := padTo_of_le _ _ _ (by omega)
  have h2 : padTo (col.index + 1) "" (f.getD r []) = f.getD r [] :=
    padTo_of_le _ _ _ (by omega)
  simp only [setCellValue, Nat.succ_ne_zero, if_false, Nat.add_sub_cancel, h1, h2]

theorem getCellValue_succ (f : Sheet) (col : Column) (r : Nat) :
    getCellValue f col (r + 1) = (f.getD r []).getD col.index "" := by
  simp [getCellValue]

theorem Column.index_le (col : Column) : col.index ≤ 3 := by
  cases col <;> simp [Column.index]

theorem Column.index_injective (c₁ c₂ : Column) (h : c₁.index = c₂.index) : c₁ = c₂ := by
  cases c₁ <;> cases c₂ <;> simp [Column.index] at h <;> rfl

/-- The routing step never selects the Date column. -/
theorem routeContent_index_le (content : String) : (routeContent content).1.index ≤ 2 := by
  unfold routeContent
  split_ifs <;> simp [colTask, colTodo, colDescription, Column.index]

theorem isTodayRow_iff (d : String) (row : Row) :
    isTodayRow d row = true ↔ 3 < row.length ∧ row.getD 3 "" = d := by
  simp [isTodayRow]

/-- The row that the insert branch builds. -/
theorem writeContent_insert (hdr : Row) (rest : List Row) (d : String)
    (col : Column) (clean : String) :
    writeContent (hdr :: rest) (-1) d col clean =
      hdr :: (["", "", "", d] : Row).set col.index clean :: rest := by
  cases col <;>
    simp [writeContent, insertRows, setCellValue, padTo, colDate, Column.index]

theorem writeContent_insert_nil (d : String) (col : Column) (clean : String) :
    writeContent [] (-1) d col clean =
      [[], (["", "", "", d] : Row).set col.index clean] := by
  cases col <;>
    simp [writeContent, insertRows, setCellValue, padTo, colDate, Column.index]

/-- The update branch replaces one cell of today's row. -/
theorem writeContent_update (f : Sheet) (i : Nat) (d : String) (col : Column)
    (clean : String) (hi : i < f.length) (hrow : 3 < (f.getD i []).length) :
    writeContent f ((i : Int) + 1) d col clean =
      f.set i ((f.getD i []).set col.index
        (if (f.getD i []).getD col.index "" ≠ "" then
          (f.getD i []).getD col.index "" ++ "\n" ++ clean
        else clean)) := by
  have hne : ¬ ((i : Int) + 1 = -1) := by omega
  have hnat : ((i : Int) + 1).toNat = i + 1 := by omega
  have hc : col.index < (f.getD i []).length := by
    have := col.index_le
    omega
  simp only [writeContent, hne, if_false, hnat, getCellValue_succ]
  exact setCellValue_stored f col i _ hi hc

theorem getD_set_self {α : Type} (l : List α) (i : Nat) (a d : α) (h : i < l.length) :
    (l.set i a).getD i d = a := by
  simp [List.getD_eq_getElem?_getD, List.getElem?_set, h]

theorem getD_set_ne {α : Type} (l : List α) (i j : Nat) (a d : α) (h : i ≠ j) :
    (l.set i a).getD j d = l.getD j d := by
  simp [List.getD_eq_getElem?_getD, List.getElem?_set, h]

/-- The first data row that is today's is the one the search returns. -/
theorem findTodayRow_eq_of_first (d : String) (rows : List Row) (i : Nat)
    (hi1 : 1 ≤ i) (hi : i < rows.length) (hm : isTodayRow d (rows.getD i []) = true)
    (hb : ∀ j, 1 ≤ j → j < i → isTodayRow d (rows.getD j []) = false) :
    findTodayRow d rows = (i : Int) + 1 := by
  rcases findTodayRow_cases d rows with ⟨-, h2⟩ | ⟨i', hi1', hi', h1, h2, h3⟩
  · rw [h2 i hi1 hi] at hm
    exact absurd hm (by decide)
  · rcases Nat.lt_trichotomy i i' with hlt | heq | hgt
    · rw [h3 i hi1 hlt] at hm
      exact absurd hm (by decide)
    · rw [h1, heq]
    · rw [hb i' hi1' hgt] at h2
      exact absurd h2 (by decide)

theorem updateWorkExcel_eq (content : String) (now : Time) (disk : Option Sheet) :
    updateWorkExcel content now disk =
      writeContent (openWorkFile disk) (findTodayRow (currentDate now) (openWorkFile disk))
        (currentDate now) (routeContent content).1 (routeContent content).2 := rfl

theorem newWorkFile_eq : newWorkFile = [["任务", "Todo", "说明", "日期"]] := by decide

/-- The call on a sheet without a row for today (header present). -/
theorem updateWorkExcel_insert (content : String) (now : Time) (hdr : Row) (rest : List Row)
    (hno : ∀ j, 1 ≤ j → j < (hdr :: rest).length →
      isTodayRow (currentDate now) ((hdr :: rest).getD j []) = false) :
    updateWorkExcel content now (some (hdr :: rest)) =
      hdr :: (["", "", "", currentDate now] : Row).set (routeContent content).1.index
        (routeContent content).2 :: rest := by
  have hfind : findTodayRow (currentDate now) (hdr :: rest) = -1 := by
    rcases findTodayRow_cases (currentDate now) (hdr :: rest) with ⟨h1, -⟩ | ⟨i, hi1, hi, -, h2, -⟩
    · exact h1
    · rw [hno i hi1 hi] at h2
      exact absurd h2 (by decide)
  rw [updateWorkExcel_eq]
  simp only [openWorkFile, hfind]
  exact writeContent_insert hdr rest _ _ _

/-- The call on a sheet whose first row for today is row index `i`. -/
theorem updateWorkExcel_update (content : String) (now : Time) (f : Sheet) (i : Nat)
    (hi1 : 1 ≤ i) (hi : i < f.length)
    (hm : isTodayRow (currentDate now) (f.getD i []) = true)
    (hb : ∀ j, 1 ≤ j → j < i → isTodayRow (currentDate now) (f.getD j []) = false) :
    updateWorkExcel content now (some f) =
      f.set i ((f.getD i []).set (routeContent content).1.index
        (if (f.getD i []).getD (routeContent content).1.index "" ≠ "" then
          (f.getD i []).getD (routeContent content).1.index "" ++ "\n" ++
            (routeContent content).2
        else (routeContent content).2)) := by
  rw [updateWorkExcel_eq]
  simp only [openWorkFile, findTodayRow_eq_of_first _ f i hi1 hi hm hb]
  exact writeContent_update f i _ _ _ hi ((isTodayRow_iff _ _).mp hm).1

/-- The call on a missing file: the header and one row for today. -/
theorem updateWorkExcel_none (content : String) (now : Time) :
    updateWorkExcel content now none =
      [["任务", "Todo", "说明", "日期"],
        (["", "", "", currentDate now] : Row).set (routeContent content).1.index
          (routeContent content).2] := by
  have h : updateWorkExcel content now none =
      updateWorkExcel content now (some [["任务", "Todo", "说明", "日期"]]) := by
    rw [updateWorkExcel_eq, updateWorkExcel_eq]
    simp only [openWorkFile, newWorkFile_eq]
  rw [h]
  apply updateWorkExcel_insert
  intro j h1 h2
  simp at h2
  omega

/-! ## Extending today's row -/

/-- C3: when a data row carries today's date, the call writes into the target
cell of the first such row the old value, a line break and the cleaned content
(the cleaned content alone when the old value is empty); the saved sheet is the
old sheet with that one cell replaced: no row is added, no row changes its
length and every other cell reads as before.  From a missing file, "d1" and
then "d2" on one day give the Note "d1\nd2". -/
theorem updateWorkExcel_existing_row (content : String) (now : Time) (f : Sheet)
    (hex : ∃ j, 1 ≤ j ∧ j < f.length ∧ isTodayRow (currentDate now) (f.getD j []) = true) :
    (∃ i, 1 ≤ i ∧ i < f.length ∧ findTodayRow (currentDate now) (getRows f) = (i : Int) + 1 ∧
      updateWorkExcel content now (some f) =
        f.set i ((f.getD i []).set (routeContent content).1.index
          (if getCellValue f (routeContent content).1 (i + 1) ≠ "" then
            getCellValue f (routeContent content).1 (i + 1) ++ "\n" ++ (routeContent content).2
          else (routeContent content).2)) ∧
      getCellValue (updateWorkExcel content now (some f)) (routeContent content).1 (i + 1) =
        (if getCellValue f (routeContent content).1 (i + 1) ≠ "" then
          getCellValue f (routeContent content).1 (i + 1) ++ "\n" ++ (routeContent content).2
        else (routeContent content).2) ∧
      (∀ r c, ¬ (r = i + 1 ∧ c = (routeContent content).1) →
        getCellValue (updateWorkExcel content now (some f)) c r = getCellValue f c r)) ∧
    (updateWorkExcel content now (some f)).length = f.length ∧
    (∀ j, ((updateWorkExcel content now (some f)).getD j []).length = (f.getD j []).length) ∧
    updateWorkExcel "d2" now (some (updateWorkExcel "d1" now none)) =
      [["任务", "Todo", "说明", "日期"], ["", "", "d1\nd2", currentDate now]] := by
  have hfirst : ∃ i, 1 ≤ i ∧ i < f.length ∧
      findTodayRow (currentDate now) f = (i : Int) + 1 ∧
      isTodayRow (currentDate now) (f.getD i []) = true ∧
      ∀ j, 1 ≤ j → j < i → isTodayRow (currentDate now) (f.getD j []) = false := by
    rcases findTodayRow_cases (currentDate now) f with ⟨-, h2⟩ | h
    · obtain ⟨j, hj1, hj, hm⟩ := hex
      rw [h2 j hj1 hj] at hm
      exact absurd hm (by decide)
    · exact h
  obtain ⟨i, hi1, hi, hfind, hm, hb⟩ := hfirst
  have heq := updateWorkExcel_update content now f i hi1 hi hm hb
  rw [← getCellValue_succ] at heq
  have hlen : 3 < (f.getD i []).length := ((isTodayRow_iff _ _).mp hm).1
  have hc : (routeContent content).1.index < (f.getD i []).length := by
    have := routeContent_index_le content
    omega
  refine ⟨⟨i, hi1, hi, hfind, heq, ?_, ?_⟩, ?_, ?_, ?_⟩
  · rw [heq, getCellValue_succ, getD_set_self _ _ _ _ hi, getD_set_self _ _ _ _ hc]
  · intro r c hrc
    rw [heq]
    cases r with
    | zero => simp [getCellValue]
    | succ r =>
      simp only [getCellValue_succ]
      by_cases hr : r = i
      · subst hr
        have hcne : (routeContent content).1.index ≠ c.index := by
          intro h
          exact hrc ⟨rfl, (Column.index_injective _ _ h).symm⟩
        rw [getD_set_self _ _ _ _ hi, getD_set_ne _ _ _ _ _ hcne]
      · rw [getD_set_ne _ _ _ _ _ (Ne.symm hr)]
  · rw [heq, List.length_set]
  · intro j
    rw [heq]
    by_cases hj : j = i
    · subst hj
      rw [getD_set_self _ _ _ _ hi, List.length_set]
    · rw [getD_set_ne _ _ _ _ _ (Ne.symm hj)]
  · have r1 : routeContent "d1" = (Column.C, "d1") := by decide
    have r2 : routeContent "d2" = (Column.C, "d2") := by decide
    have g1 := updateWorkExcel_none "d1" now
    rw [r1] at g1
    rw [g1, updateWorkExcel_update "d2" now _ 1 (le_refl 1) (by simp)
      (by simp [isTodayRow, Column.index]) (by intro j h1 h2; omega), r2]
    have hd : ("d1" : String) ≠ "" := by decide
    have hcat : ("d1" : String) ++ "\n" ++ "d2" = "d1\nd2" := by decide
    simp [Column.index, hd, hcat]

theorem updateWorkExcel_existing_row_witness :
    (∃ j, 1 ≤ j ∧ j < ([["任务", "Todo", "说明", "日期"], ["a", "", "", "5/07/2024"]] : Sheet).length ∧
      isTodayRow (currentDate ⟨5, 7, 2024⟩)
        (([["任务", "Todo", "说明", "日期"], ["a", "", "", "5/07/2024"]] : Sheet).getD j []) = true) ∧
    (updateWorkExcel "Ta: b" ⟨5, 7, 2024⟩
      (some [["任务", "Todo", "说明", "日期"], ["a", "", "", "5/07/2024"]])).length = 2 ∧
    updateWorkExcel "Ta: b" ⟨5, 7, 2024⟩
      (some [["任务", "Todo", "说明", "日期"], ["a", "", "", "5/07/2024"]]) =
        [["任务", "Todo", "说明", "日期"], ["a\nb", "", "", "5/07/2024"]] :=
  ⟨⟨1, by decide, by decide, by decide⟩,
   (updateWorkExcel_existing_row "Ta: b" ⟨5, 7, 2024⟩
      [["任务", "Todo", "说明", "日期"], ["a", "", "", "5/07/2024"]]
      ⟨1, by decide, by decide, by decide⟩).2.1,
   by decide⟩

/-! ## A new row for a new day -/

/-- C4: when no data row carries today's date, the call inserts one row
directly below the header: its Date cell is today's string, its target cell the
cleaned content, its other cells empty; the header is unchanged and the earlier
data rows follow in their order, each one position further down. -/
theorem updateWorkExcel_new_row (content : String) (now : Time) (hdr : Row) (rest : List Row)
    (hno : ∀ j, 1 ≤ j → j < (hdr :: rest).length →
      isTodayRow (currentDate now) ((hdr :: rest).getD j []) = false) :
    findTodayRow (currentDate now) (getRows (hdr :: rest)) = -1 ∧
    (∃ newRow : Row,
      updateWorkExcel content now (some (hdr :: rest)) = hdr :: newRow :: rest ∧
      newRow.length = 4 ∧
      newRow.getD colDate.index "" = currentDate now ∧
      newRow.getD (routeContent content).1.index "" = (routeContent content).2 ∧
      ∀ c : Column, c ≠ colDate → c ≠ (routeContent content).1 →
        newRow.getD c.index "" = "") ∧
    (updateWorkExcel content now (some (hdr :: rest))).length = (hdr :: rest).length + 1 ∧
    (updateWorkExcel content now (some (hdr :: rest))).getD 0 [] = hdr ∧
    (∀ j, 1 ≤ j → (updateWorkExcel content now (some (hdr :: rest))).getD (j + 1) [] =
      (hdr :: rest).getD j []) := by
  have heq := updateWorkExcel_insert content now hdr rest hno
  have hle := routeContent_index_le content
  have hfind : findTodayRow (currentDate now) (hdr :: rest) = -1 := by
    rcases findTodayRow_cases (currentDate now) (hdr :: rest) with ⟨h1, -⟩ | ⟨i, hi1, hi, -, h2, -⟩
    · exact h1
    · rw [hno i hi1 hi] at h2
      exact absurd h2 (by decide)
  refine ⟨hfind, ⟨_, heq, ?_, ?_, ?_, ?_⟩, ?_, ?_, ?_⟩
  · simp
  · generalize (routeContent content).1 = col at hle
    cases col <;> simp [Column.index, colDate] at hle ⊢
  · generalize (routeContent content).1 = col at hle
    cases col <;> simp [Column.index] at hle ⊢
  · intro c hc1 hc2
    generalize (routeContent content).1 = col at hle hc2
    cases col <;> cases c <;> simp [Column.index, colDate] at hle hc1 hc2 ⊢
  · rw [heq]
    simp
  · rw [heq]
    simp
  · intro j hj
    rw [heq]
    obtain ⟨k, rfl⟩ : ∃ k, j = k + 1 := ⟨j - 1, by omega⟩
    simp

theorem updateWorkExcel_new_row_witness :
    (∀ j, 1 ≤ j →
      j < ([["任务", "Todo", "说明", "日期"], ["old", "", "", "4/07/2024"]] : Sheet).length →
      isTodayRow (currentDate ⟨5, 7, 2024⟩)
        (([["任务", "Todo", "说明", "日期"], ["old", "", "", "4/07/2024"]] : Sheet).getD j []) =
          false) ∧
    (updateWorkExcel "Ta: X" ⟨5, 7, 2024⟩
      (some [["任务", "Todo", "说明", "日期"], ["old", "", "", "4/07/2024"]])).getD 0 [] =
        ["任务", "Todo", "说明", "日期"] ∧
    updateWorkExcel "Ta: X" ⟨5, 7, 2024⟩
      (some [["任务", "Todo", "说明", "日期"], ["old", "", "", "4/07/2024"]]) =
        [["任务", "Todo", "说明", "日期"], ["X", "", "", "5/07/2024"],
          ["old", "", "", "4/07/2024"]] :=
  have hno : ∀ j, 1 ≤ j →
      j < ([["任务", "Todo", "说明", "日期"], ["old", "", "", "4/07/2024"]] : Sheet).length →
      isTodayRow (currentDate ⟨5, 7, 2024⟩)
        (([["任务", "Todo", "说明", "日期"], ["old", "", "", "4/07/2024"]] : Sheet).getD j []) =
          false := by
    intro j h1 h2
    have hj : j = 1 := by
      simp at h2
      omega
    subst hj
    decide
  ⟨hno,
   (updateWorkExcel_new_row "Ta: X" ⟨5, 7, 2024⟩ ["任务", "Todo", "说明", "日期"]
      [["old", "", "", "4/07/2024"]] hno).2.2.2.1,
   by decide⟩

/-! ## Two messages on one day -/

/-- C8: from a freshly created sheet (header only), "Ta: X" and then "To: Y" on
the same date leave exactly one data row: Task is X trimmed, Todo is Y trimmed,
Note is empty and Date is that day's string. -/
theorem updateWorkExcel_task_then_todo (X Y : String) (now : Time) :
    updateWorkExcel ("Ta: " ++ X) now none =
      [["任务", "Todo", "说明", "日期"], [trimSpace X, "", "", currentDate now]] ∧
    updateWorkExcel ("To: " ++ Y) now (some (updateWorkExcel ("Ta: " ++ X) now none)) =
      [["任务", "Todo", "说明", "日期"], [trimSpace X, trimSpace Y, "", currentDate now]] ∧
    (updateWorkExcel ("To: " ++ Y) now
      (some (updateWorkExcel ("Ta: " ++ X) now none))).length = 2 ∧
    updateWorkExcel ("To: " ++ Y) now (some (updateWorkExcel ("Ta: " ++ X) now (some newWorkFile))) =
      [["任务", "Todo", "说明", "日期"], [trimSpace X, trimSpace Y, "", currentDate now]] := by
  have r1 : routeContent ("Ta: " ++ X) = (Column.A, trimSpace X) := by
    have h : "Ta: " ++ X = "Ta:" ++ (" " ++ X) := by
      rw [← String.append_assoc]
      rfl
    rw [h, routeContent_task, trimSpace_space_append]
  have r2 : routeContent ("To: " ++ Y) = (Column.B, trimSpace Y) := by
    have h : "To: " ++ Y = "To:" ++ (" " ++ Y) := by
      rw [← String.append_assoc]
      rfl
    rw [h, routeContent_todo, trimSpace_space_append]
  have g1 : updateWorkExcel ("Ta: " ++ X) now none =
      [["任务", "Todo", "说明", "日期"], [trimSpace X, "", "", currentDate now]] := by
    rw [updateWorkExcel_none, r1]
    simp [Column.index]
  have g2 : updateWorkExcel ("To: " ++ Y) now (some (updateWorkExcel ("Ta: " ++ X) now none)) =
      [["任务", "Todo", "说明", "日期"], [trimSpace X, trimSpace Y, "", currentDate now]] := by
    rw [g1, updateWorkExcel_update ("To: " ++ Y) now _ 1 (le_refl 1) (by simp)
      (by simp [isTodayRow]) (by intro j h1 h2; omega), r2]
    simp [Column.index]
  have hsame : updateWorkExcel ("Ta: " ++ X) now (some newWorkFile) =
      updateWorkExcel ("Ta: " ++ X) now none := rfl
  refine ⟨g1, g2, ?_, ?_⟩
  · rw [g2]
    rfl
  · rw [hsame]
    exact g2

/-! ## The same message twice -/

theorem append_line_ne (v s : String) : v ++ "\n" ++ s ≠ v := by
  intro he
  have h1 := congrArg String.length he
  rw [String.length_append, String.length_append] at h1
  have h2 : ("\n" : String).length = 1 := rfl
  omega

theorem isTodayRow_set (d : String) (row : Row) (c : Nat) (v : String) (hc : c ≤ 2) :
    isTodayRow d (row.set c v) = isTodayRow d row := by
  have h : (row.set c v).getD 3 "" = row.getD 3 "" := getD_set_ne _ _ _ _ _ (by omega)
  simp only [isTodayRow, h, List.length_set]

/-- After a call the sheet has a first row for today, and its target cell ends
with the cleaned content. -/
theorem updateWorkExcel_today_row (content : String) (now : Time) (disk : Option Sheet) :
    ∃ (i : Nat) (pre : String), 1 ≤ i ∧ i < (updateWorkExcel content now disk).length ∧
      isTodayRow (currentDate now) ((updateWorkExcel content now disk).getD i []) = true ∧
      (∀ j, 1 ≤ j → j < i →
        isTodayRow (currentDate now) ((updateWorkExcel content now disk).getD j []) = false) ∧
      ((updateWorkExcel content now disk).getD i []).getD (routeContent content).1.index "" =
        pre ++ (routeContent content).2 := by
  have hle := routeContent_index_le content
  rw [updateWorkExcel_eq]
  generalize openWorkFile disk = f
  have hnew : isTodayRow (currentDate now)
      ((["", "", "", currentDate now] : Row).set (routeContent content).1.index
        (routeContent content).2) = true := by
    rw [isTodayRow_set _ _ _ _ hle]
    simp [isTodayRow]
  have hcell : ((["", "", "", currentDate now] : Row).set (routeContent content).1.index
      (routeContent content).2).getD (routeContent content).1.index "" =
        "" ++ (routeContent content).2 := by
    rw [String.empty_append]
    exact getD_set_self _ _ _ _ (by simp; omega)
  rcases findTodayRow_cases (currentDate now) f with ⟨h1, -⟩ | ⟨i, hi1, hi, h1, h2, h3⟩
  · rw [h1]
    cases f with
    | nil =>
      rw [writeContent_insert_nil]
      exact ⟨1, "", le_refl 1, by simp, by simpa using hnew,
        by intro j hj1 hj; omega, by simpa using hcell⟩
    | cons hdr rest =>
      rw [writeContent_insert]
      exact ⟨1, "", le_refl 1, by simp, by simpa using hnew,
        by intro j hj1 hj; omega, by simpa using hcell⟩
  · have hlen : 3 < (f.getD i []).length := ((isTodayRow_iff _ _).mp h2).1
    rw [h1, writeContent_update f i _ _ _ hi hlen]
    refine ⟨i, if (f.getD i []).getD (routeContent content).1.index "" ≠ "" then
        (f.getD i []).getD (routeContent content).1.index "" ++ "\n" else "",
      hi1, by simpa using hi, ?_, ?_, ?_⟩
    · rw [getD_set_self _ _ _ _ hi, isTodayRow_set _ _ _ _ hle]
      exact h2
    · intro j hj1 hj
      rw [getD_set_ne _ _ _ _ _ (by omega)]
      exact h3 j hj1 hj
    · rw [getD_set_self _ _ _ _ hi, getD_set_self _ _ _ _ (by omega)]
      split_ifs
      · rfl
      · rw [String.empty_append]

/-- C9 (amended): when the target cell of today's row is not empty after the
first call, two calls with the same content on the same date append it twice:
after the second call the target cell of today's row is the cell after the
first call, a line break and the cleaned content, so it ends with the cleaned
content, a line break and the cleaned content, and the sheet differs from the
sheet after the first call. -/
theorem updateWorkExcel_twice (content : String) (now : Time) (disk : Option Sheet)
    (hfilled : ∀ i : Nat,
      findTodayRow (currentDate now) (updateWorkExcel content now disk) = (i : Int) + 1 →
      getCellValue (updateWorkExcel content now disk) (routeContent content).1 (i + 1) ≠ "") :
    ∃ (i : Nat) (pre : String), 1 ≤ i ∧
      findTodayRow (currentDate now) (updateWorkExcel content now disk) = (i : Int) + 1 ∧
      findTodayRow (currentDate now)
        (updateWorkExcel content now (some (updateWorkExcel content now disk))) = (i : Int) + 1 ∧
      getCellValue (updateWorkExcel content now (some (updateWorkExcel content now disk)))
          (routeContent content).1 (i + 1) =
        getCellValue (updateWorkExcel content now disk) (routeContent content).1 (i + 1) ++
          "\n" ++ (routeContent content).2 ∧
      getCellValue (updateWorkExcel content now (some (updateWorkExcel content now disk)))
          (routeContent content).1 (i + 1) =
        pre ++ (routeContent content).2 ++ "\n" ++ (routeContent content).2 ∧
      updateWorkExcel content now (some (updateWorkExcel content now disk)) ≠
        updateWorkExcel content now disk := by
  have hle := routeContent_index_le content
  obtain ⟨i, pre, hi1, hi, hm, hb, hcell⟩ := updateWorkExcel_today_row content now disk
  generalize updateWorkExcel content now disk = g at hi hm hb hcell hfilled
  have hlen : 3 < (g.getD i []).length := ((isTodayRow_iff _ _).mp hm).1
  have hne : (g.getD i []).getD (routeContent content).1.index "" ≠ "" := by
    rw [← getCellValue_succ]
    exact hfilled i (findTodayRow_eq_of_first _ g i hi1 hi hm hb)
  have heq := updateWorkExcel_update content now g i hi1 hi hm hb
  rw [if_pos hne] at heq
  have hval : getCellValue (updateWorkExcel content now (some g)) (routeContent content).1 (i + 1) =
      getCellValue g (routeContent content).1 (i + 1) ++ "\n" ++ (routeContent content).2 := by
    rw [heq]
    simp only [getCellValue_succ]
    rw [getD_set_self _ _ _ _ hi, getD_set_self _ _ _ _ (by omega)]
  refine ⟨i, pre, hi1, findTodayRow_eq_of_first _ g i hi1 hi hm hb, ?_, hval, ?_, ?_⟩
  · apply findTodayRow_eq_of_first _ _ i hi1
    · rw [heq, List.length_set]
      exact hi
    · rw [heq, getD_set_self _ _ _ _ hi, isTodayRow_set _ _ _ _ hle]
      exact hm
    · intro j hj1 hj
      rw [heq, getD_set_ne _ _ _ _ _ (by omega)]
      exact hb j hj1 hj
  · rw [hval, getCellValue_succ, hcell]
  · intro hsame
    rw [hsame] at hval
    exact append_line_ne _ _ hval.symm

theorem updateWorkExcel_twice_witness :
    (∀ i : Nat,
      findTodayRow (currentDate ⟨5, 7, 2024⟩)
        (updateWorkExcel "Ta:" ⟨5, 7, 2024⟩
          (some [["任务", "Todo", "说明", "日期"], ["a", "", "", "5/07/2024"]])) = (i : Int) + 1 →
      getCellValue
        (updateWorkExcel "Ta:" ⟨5, 7, 2024⟩
          (some [["任务", "Todo", "说明", "日期"], ["a", "", "", "5/07/2024"]]))
        (routeContent "Ta:").1 (i + 1) ≠ "") ∧
    (routeContent "Ta:").2 = "" ∧
    updateWorkExcel "Ta:" ⟨5, 7, 2024⟩
        (some [["任务", "Todo", "说明", "日期"], ["a", "", "", "5/07/2024"]]) =
      [["任务", "Todo", "说明", "日期"], ["a\n", "", "", "5/07/2024"]] ∧
    updateWorkExcel "Ta:" ⟨5, 7, 2024⟩
        (some (updateWorkExcel "Ta:" ⟨5, 7, 2024⟩
          (some [["任务", "Todo", "说明", "日期"], ["a", "", "", "5/07/2024"]]))) =
      [["任务", "Todo", "说明", "日期"], ["a\n\n", "", "", "5/07/2024"]] ∧
    updateWorkExcel "Ta:" ⟨5, 7, 2024⟩
        (some (updateWorkExcel "Ta:" ⟨5, 7, 2024⟩
          (some [["任务", "Todo", "说明", "日期"], ["a", "", "", "5/07/2024"]]))) ≠
      updateWorkExcel "Ta:" ⟨5, 7, 2024⟩
        (some [["任务", "Todo", "说明", "日期"], ["a", "", "", "5/07/2024"]]) :=
  have hfilled : ∀ i : Nat,
      findTodayRow (currentDate ⟨5, 7, 2024⟩)
        (updateWorkExcel "Ta:" ⟨5, 7, 2024⟩
          (some [["任务", "Todo", "说明", "日期"], ["a", "", "", "5/07/2024"]])) = (i : Int) + 1 →
      getCellValue
        (updateWorkExcel "Ta:" ⟨5, 7, 2024⟩
          (some [["任务", "Todo", "说明", "日期"], ["a", "", "", "5/07/2024"]]))
        (routeContent "Ta:").1 (i + 1) ≠ "" := by
    intro i hi
    have h2 : findTodayRow (currentDate ⟨5, 7, 2024⟩)
        (updateWorkExcel "Ta:" ⟨5, 7, 2024⟩
          (some [["任务", "Todo", "说明", "日期"], ["a", "", "", "5/07/2024"]])) = 2 := by
      decide
    rw [h2] at hi
    have h1 : i = 1 := by omega
    subst h1
    decide
  ⟨hfilled, by decide, by decide, by decide,
    (updateWorkExcel_twice "Ta:" ⟨5, 7, 2024⟩
      (some [["任务", "Todo", "说明", "日期"], ["a", "", "", "5/07/2024"]]) hfilled).elim
      fun _ h => h.elim fun _ h' => h'.2.2.2.2.2⟩

/-- C9 fails when the target cell is still empty after the first call: the
content "Ta:" filed twice on one day into a header-only sheet leaves the sheet
after the second call equal to the sheet after the first, and the Task cell of
today's row is empty. -/
theorem updateWorkExcel_twice_empty_content :
    routeContent "Ta:" = (Column.A, "") ∧
    updateWorkExcel "Ta:" ⟨5, 7, 2024⟩
        (some (updateWorkExcel "Ta:" ⟨5, 7, 2024⟩ (some newWorkFile))) =
      updateWorkExcel "Ta:" ⟨5, 7, 2024⟩ (some newWorkFile) ∧
    findTodayRow (currentDate ⟨5, 7, 2024⟩)
        (updateWorkExcel "Ta:" ⟨5, 7, 2024⟩
          (some (updateWorkExcel "Ta:" ⟨5, 7, 2024⟩ (some newWorkFile)))) = 2 ∧
    getCellValue (updateWorkExcel "Ta:" ⟨5, 7, 2024⟩
        (some (updateWorkExcel "Ta:" ⟨5, 7, 2024⟩ (some newWorkFile)))) Column.A 2 = "" ∧
    (∀ pre : String,
      getCellValue (updateWorkExcel "Ta:" ⟨5, 7, 2024⟩
        (some (updateWorkExcel "Ta:" ⟨5, 7, 2024⟩ (some newWorkFile)))) Column.A 2 ≠
          pre ++ "" ++ "\n" ++ "") ∧
    ¬ (∀ (content : String) (now : Time) (f : Sheet),
        updateWorkExcel content now (some (updateWorkExcel content now (some f))) ≠
          updateWorkExcel content now (some f)) := by
  have hcell : getCellValue (updateWorkExcel "Ta:" ⟨5, 7, 2024⟩
      (some (updateWorkExcel "Ta:" ⟨5, 7, 2024⟩ (some newWorkFile)))) Column.A 2 = "" := by
    decide
  refine ⟨by decide, by decide, by decide, hcell, ?_, ?_⟩
  · intro pre he
    rw [hcell] at he
    have h1 := congrArg String.length he
    rw [String.length_append, String.length_append, String.length_append] at h1
    have h2 : ("\n" : String).length = 1 := rfl
    have h3 : ("" : String).length = 0 := rfl
    omega
  · intro h
    exact h "Ta:" ⟨5, 7, 2024⟩ newWorkFile (by decide)

/-! ## One row per date -/

theorem head?_set_succ {α : Type} (l : List α) (i : Nat) (a : α) (hi : 1 ≤ i) :
    (l.set i a).head? = l.head? := by
  obtain ⟨k, rfl⟩ : ∃ k, i = k + 1 := ⟨i - 1, by omega⟩
  cases l <;> simp

/-- C10: if every data row has its four cells and no two data rows carry the
same Date value, the same holds after a call, for every content and every
date, and the header row is still the first row, unchanged. -/
theorem updateWorkExcel_dates_unique (content : String) (now : Time) (f : Sheet)
    (h4 : ∀ j, 1 ≤ j → j < f.length → 3 < (f.getD j []).length)
    (huniq : ∀ j k, 1 ≤ j → j < f.length → 1 ≤ k → k < f.length →
      (f.getD j []).getD colDate.index "" = (f.getD k []).getD colDate.index "" → j = k) :
    (∀ j, 1 ≤ j → j < (updateWorkExcel content now (some f)).length →
      3 < ((updateWorkExcel content now (some f)).getD j []).length) ∧
    (∀ j k, 1 ≤ j → j < (updateWorkExcel content now (some f)).length →
      1 ≤ k → k < (updateWorkExcel content now (some f)).length →
      ((updateWorkExcel content now (some f)).getD j []).getD colDate.index "" =
        ((updateWorkExcel content now (some f)).getD k []).getD colDate.index "" → j = k) ∧
    (∀ hdr, f.head? = some hdr →
      (updateWorkExcel content now (some f)).head? = some hdr) := by
  have hle := routeContent_index_le content
  have hD : colDate.index = 3 := rfl
  rw [hD] at huniq ⊢
  have hnewlen : ((["", "", "", currentDate now] : Row).set (routeContent content).1.index
      (routeContent content).2).length = 4 := by simp
  have hnewdate : ((["", "", "", currentDate now] : Row).set (routeContent content).1.index
      (routeContent content).2).getD 3 "" = currentDate now := by
    rw [getD_set_ne _ _ _ _ _ (by omega)]
    rfl
  rcases findTodayRow_cases (currentDate now) f with ⟨h1, h2⟩ | ⟨i, hi1, hi, h1, h2, h3⟩
  · cases f with
    | nil =>
      have heq : updateWorkExcel content now (some []) =
          [[], (["", "", "", currentDate now] : Row).set (routeContent content).1.index
            (routeContent content).2] := by
        rw [updateWorkExcel_eq]
        simp only [openWorkFile, h1]
        exact writeContent_insert_nil _ _ _
      rw [heq]
      refine ⟨?_, ?_, by simp⟩
      · intro j hj1 hj
        have : j = 1 := by simp at hj; omega
        subst this
        simp
      · intro j k hj1 hj hk1 hk _
        simp at hj hk
        omega
    | cons hdr rest =>
      rw [updateWorkExcel_insert content now hdr rest h2]
      have hold : ∀ j, j < rest.length →
          3 < (rest.getD j []).length ∧ (rest.getD j []).getD 3 "" ≠ currentDate now := by
        intro j hj
        have hl := h4 (j + 1) (by omega) (by simpa using hj)
        have hn := h2 (j + 1) (by omega) (by simpa using hj)
        simp only [List.getD_cons_succ] at hl hn
        refine ⟨hl, ?_⟩
        intro hdate
        have := (isTodayRow_iff (currentDate now) (rest.getD j [])).mpr ⟨hl, hdate⟩
        rw [hn] at this
        exact absurd this (by decide)
      refine ⟨?_, ?_, ?_⟩
      · intro j hj1 hj
        obtain ⟨j, rfl⟩ : ∃ j', j = j' + 1 := ⟨j - 1, by omega⟩
        cases j with
        | zero => simp
        | succ j =>
          simp only [List.getD_cons_succ]
          exact (hold j (by simpa using hj)).1
      · intro j k hj1 hj hk1 hk hjk
        obtain ⟨j, rfl⟩ : ∃ j', j = j' + 1 := ⟨j - 1, by omega⟩
        obtain ⟨k, rfl⟩ : ∃ k', k = k' + 1 := ⟨k - 1, by omega⟩
        simp only [List.getD_cons_succ] at hjk
        simp only [List.length_cons] at hj hk
        cases j with
        | zero =>
          cases k with
          | zero => rfl
          | succ k =>
            simp only [List.getD_cons_zero, List.getD_cons_succ] at hjk
            rw [hnewdate] at hjk
            exact absurd hjk.symm (hold k (by omega)).2
        | succ j =>
          cases k with
          | zero =>
            simp only [List.getD_cons_zero, List.getD_cons_succ] at hjk
            rw [hnewdate] at hjk
            exact absurd hjk (hold j (by omega)).2
          | succ k =>
            simp only [List.getD_cons_succ] at hjk
            have := huniq (j + 1) (k + 1) (by omega) (by simp; omega) (by omega)
              (by simp; omega) (by simpa using hjk)
            omega
      · intro hdr' hh
        simpa using hh
  · have heq := updateWorkExcel_update content now f i hi1 hi h2 h3
    generalize (if (f.getD i []).getD (routeContent content).1.index "" ≠ "" then
      (f.getD i []).getD (routeContent content).1.index "" ++ "\n" ++ (routeContent content).2
      else (routeContent content).2) = v at heq
    have hrow : ∀ j, ((f.set i ((f.getD i []).set (routeContent content).1.index v)).getD j []).length
          = (f.getD j []).length ∧
        ((f.set i ((f.getD i []).set (routeContent content).1.index v)).getD j []).getD 3 ""
          = (f.getD j []).getD 3 "" := by
      intro j
      by_cases hj : j = i
      · subst hj
        rw [getD_set_self _ _ _ _ hi, List.length_set, getD_set_ne _ _ _ _ _ (by omega)]
        exact ⟨rfl, rfl⟩
      · rw [getD_set_ne _ _ _ _ _ (Ne.symm hj)]
        exact ⟨rfl, rfl⟩
    rw [heq]
    refine ⟨?_, ?_, ?_⟩
    · intro j hj1 hj
      rw [(hrow j).1]
      exact h4 j hj1 (by simpa using hj)
    · intro j k hj1 hj hk1 hk hjk
      rw [(hrow j).2, (hrow k).2] at hjk
      exact huniq j k hj1 (by simpa using hj) hk1 (by simpa using hk) hjk
    · intro hdr hh
      rw [head?_set_succ _ _ _ hi1]
      exact hh

theorem updateWorkExcel_dates_unique_witness :
    (∀ j, 1 ≤ j →
      j < ([["任务", "Todo", "说明", "日期"], ["old", "", "", "4/07/2024"],
        ["older", "", "", "3/07/2024"]] : Sheet).length →
      3 < (([["任务", "Todo", "说明", "日期"], ["old", "", "", "4/07/2024"],
        ["older", "", "", "3/07/2024"]] : Sheet).getD j []).length) ∧
    (∀ j k, 1 ≤ j →
      j < ([["任务", "Todo", "说明", "日期"], ["old", "", "", "4/07/2024"],
        ["older", "", "", "3/07/2024"]] : Sheet).length →
      1 ≤ k →
      k < ([["任务", "Todo", "说明", "日期"], ["old", "", "", "4/07/2024"],
        ["older", "", "", "3/07/2024"]] : Sheet).length →
      (([["任务", "Todo", "说明", "日期"], ["old", "", "", "4/07/2024"],
        ["older", "", "", "3/07/2024"]] : Sheet).getD j []).getD colDate.index "" =
      (([["任务", "Todo", "说明", "日期"], ["old", "", "", "4/07/2024"],
        ["older", "", "", "3/07/2024"]] : Sheet).getD k []).getD colDate.index "" → j = k) ∧
    updateWorkExcel "note" ⟨5, 7, 2024⟩
      (some [["任务", "Todo", "说明", "日期"], ["old", "", "", "4/07/2024"],
        ["older", "", "", "3/07/2024"]]) =
        [["任务", "Todo", "说明", "日期"], ["", "", "note", "5/07/2024"],
          ["old", "", "", "4/07/2024"], ["older", "", "", "3/07/2024"]] ∧
    (∀ j, 1 ≤ j →
      j < (updateWorkExcel "note" ⟨5, 7, 2024⟩
        (some [["任务", "Todo", "说明", "日期"], ["old", "", "", "4/07/2024"],
          ["older", "", "", "3/07/2024"]])).length →
      3 < ((updateWorkExcel "note" ⟨5, 7, 2024⟩
        (some [["任务", "Todo", "说明", "日期"], ["old", "", "", "4/07/2024"],
          ["older", "", "", "3/07/2024"]])).getD j []).length) ∧
    (∀ j k, 1 ≤ j →
      j < (updateWorkExcel "note" ⟨5, 7, 2024⟩
        (some [["任务", "Todo", "说明", "日期"], ["old", "", "", "4/07/2024"],
          ["older", "", "", "3/07/2024"]])).length →
      1 ≤ k →
      k < (updateWorkExcel "note" ⟨5, 7, 2024⟩
        (some [["任务", "Todo", "说明", "日期"], ["old", "", "", "4/07/2024"],
          ["older", "", "", "3/07/2024"]])).length →
      ((updateWorkExcel "note" ⟨5, 7, 2024⟩
        (some [["任务", "Todo", "说明", "日期"], ["old", "", "", "4/07/2024"],
          ["older", "", "", "3/07/2024"]])).getD j []).getD colDate.index "" =
      ((updateWorkExcel "note" ⟨5, 7, 2024⟩
        (some [["任务", "Todo", "说明", "日期"], ["old", "", "", "4/07/2024"],
          ["older", "", "", "3/07/2024"]])).getD k []).getD colDate.index "" → j = k) ∧
    (∀ hdr, ([["任务", "Todo", "说明", "日期"], ["old", "", "", "4/07/2024"],
        ["older", "", "", "3/07/2024"]] : Sheet).head? = some hdr →
      (updateWorkExcel "note" ⟨5, 7, 2024⟩
        (some [["任务", "Todo", "说明", "日期"], ["old", "", "", "4/07/2024"],
          ["older", "", "", "3/07/2024"]])).head? = some hdr) :=
  have h4 : ∀ j, 1 ≤ j →
      j < ([["任务", "Todo", "说明", "日期"], ["old", "", "", "4/07/2024"],
        ["older", "", "", "3/07/2024"]] : Sheet).length →
      3 < (([["任务", "Todo", "说明", "日期"], ["old", "", "", "4/07/2024"],
        ["older", "", "", "3/07/2024"]] : Sheet).getD j []).length := by
    intro j h1 h2
    have h3 : j < 3 := by simpa using h2
    interval_cases j <;> decide
  have huniq : ∀ j k, 1 ≤ j →
      j < ([["任务", "Todo", "说明", "日期"], ["old", "", "", "4/07/2024"],
        ["older", "", "", "3/07/2024"]] : Sheet).length →
      1 ≤ k →
      k < ([["任务", "Todo", "说明", "日期"], ["old", "", "", "4/07/2024"],
        ["older", "", "", "3/07/2024"]] : Sheet).length →
      (([["任务", "Todo", "说明", "日期"], ["old", "", "", "4/07/2024"],
        ["older", "", "", "3/07/2024"]] : Sheet).getD j []).getD colDate.index "" =
      (([["任务", "Todo", "说明", "日期"], ["old", "", "", "4/07/2024"],
        ["older", "", "", "3/07/2024"]] : Sheet).getD k []).getD colDate.index "" → j = k := by
    intro j k hj1 hj hk1 hk hjk
    have hj3 : j < 3 := by simpa using hj
    have hk3 : k < 3 := by simpa using hk
    interval_cases j <;> interval_cases k <;>
      first
        | rfl
        | exact absurd hjk (by decide)
  ⟨h4, huniq, by decide,
    updateWorkExcel_dates_unique "note" ⟨5, 7, 2024⟩
      [["任务", "Todo", "说明", "日期"], ["old", "", "", "4/07/2024"],
        ["older", "", "", "3/07/2024"]] h4 huniq⟩

end WorkSync
